import Mathlib

/-!
Shallow embedding of the covasim intervention engine and contact-network
generator (`covasim/interventions.py`, `covasim/population.py`), together
with proofs about the embedded operations.

Conventions:
* Python ints are `ℤ` (or `ℕ` where they are used only as indices).
* Python floats are `ℚ`, except where non-finite values matter, in which
  case `PyFloat` (a rational extended with `inf` and `nan`) is used.
* Python dicts are association lists; numpy arrays are `List`s.
* Fallible code returns `Except String`.
* Library code of the repository that is not under `src/`
  (`covasim/utils.py`, `covasim/person.py`) is modelled from the spec and
  marked `Modelled from the spec:` in its doc comment.
-/

set_option maxHeartbeats 1000000

namespace Covasim

/-! ## Helpers shared by several interventions (sciris / numpy) -/

/-- Embeds `sc.findinds(arr, val)`: the indices at which `arr` equals `val`. -/
def findinds (arr : List ℤ) (val : ℤ) : List ℕ :=
  (List.range arr.length).filter (fun i => arr.getD i 0 = val)

/-- Embeds `np.cumsum(l)`: running prefix sums of `l`. -/
def cumsum (l : List ℤ) : List ℤ :=
  (l.scanl (· + ·) 0).tail

/-- Index of the first `true` in a boolean list, if any. -/
def firstTrue? : List Bool → Option ℕ
  | [] => none
  | true :: _ => some 0
  | false :: rest => (firstTrue? rest).map (· + 1)

/-- Embeds `np.argmax` on a boolean array: index of the first `true`, or `0` when
every entry is `false` (all entries then tie at the maximum `false`, and
numpy returns the first occurrence). -/
def np_argmax_bool (l : List Bool) : ℕ :=
  (firstTrue? l).getD 0

/-! ## `sequence` (interventions.py lines 125-152) -/

/-- Embeds `sequence.__init__`: stores the day durations and the children and
precomputes `self._cum_days = np.cumsum(days)`; asserts the two lists have
equal length. -/
def sequence_init {α : Type} (days : List ℤ) (interventions : List α) :
    Option (List ℤ × List α × List ℤ) :=
  if days.length = interventions.length then
    some (days, interventions, cumsum days)
  else
    none

/-- The dispatch index of `sequence.apply`:
`idx = np.argmax(self._cum_days > sim.t)`. -/
def sequence_idx (days : List ℤ) (t : ℤ) : ℕ :=
  np_argmax_bool ((cumsum days).map (fun c => decide (t < c)))

/-- Embeds `sequence.apply`: dispatch to child `idx`; returns the child that
receives the `apply` call. -/
def sequence_apply {α : Type} (days : List ℤ) (interventions : List α) (t : ℤ) :
    Option α :=
  interventions.get? (sequence_idx days t)

/-! ## `dynamic_pars` (interventions.py lines 72-122) -/

/-- A parameter value held by the simulation: either a scalar or a nested
mapping (Python dict). -/
inductive PVal where
  | scalar : ℚ → PVal
  | map : List (String × ℚ) → PVal
deriving DecidableEq, Repr

/-- The raw argument to `dynamic_pars.__init__` for one parameter: the
`'days'` and `'vals'` subkeys, each possibly missing (`none`). -/
structure ParSpec where
  days : Option (List ℤ)
  vals : Option (List PVal)
deriving DecidableEq, Repr

/-- A validated schedule entry: parameter key, days, values. -/
abbrev DynSchedule := List (String × List ℤ × List PVal)

/-- The per-parameter validation performed by `dynamic_pars.__init__`:
missing `'days'`/`'vals'` subkeys raise `KeyError`, mismatched lengths
raise `ValueError`.  Note no check on duplicate days is performed here. -/
def checkPar : String × ParSpec → Except String (String × List ℤ × List PVal)
  | (k, sp) =>
    match sp.days with
    | none => .error ("Parameter " ++ k ++ " is missing subkey days")
    | some ds =>
      match sp.vals with
      | none => .error ("Parameter " ++ k ++ " is missing subkey vals")
      | some vs =>
        if ds.length = vs.length then .ok (k, ds, vs)
        else .error ("Length of days does not match length of values for parameter " ++ k)

/-- Embeds `dynamic_pars.__init__`: validates every parameter spec and stores the
schedule. -/
def dynamic_pars_init (pars : List (String × ParSpec)) : Except String DynSchedule :=
  pars.mapM checkPar

/-- The simulation's parameter dictionary (leftmost binding wins on
lookup). -/
abbrev SimPars := List (String × PVal)

/-- Embeds `sim[parkey] = val`: scalar overwrite (prepend; leftmost wins). -/
def simSet (sim : SimPars) (k : String) (v : PVal) : SimPars :=
  (k, v) :: sim

/-- Embeds `sim[parkey].update(val)`: merge a nested dict into the mapping stored
at `k` (new keys override; entries whose stored value is not a mapping are
outside the scope of the verified claims and are left unchanged). -/
def simUpdateKey (sim : SimPars) (k : String) (m : List (String × ℚ)) : SimPars :=
  sim.map (fun p =>
    if p.1 = k then
      (p.1, match p.2 with
            | PVal.map old => PVal.map (m ++ old)
            | v => v)
    else p)

/-- The body of `dynamic_pars.apply` for a single parameter: look for
matches of the current day `t` in the schedule; more than one match raises
`ValueError`; exactly one match sets (or merges into) the parameter. -/
def dynamic_pars_applyPar (t : ℤ) (sim : SimPars) :
    String × List ℤ × List PVal → Except String SimPars
  | (k, ds, vs) =>
    let inds := findinds ds t
    if inds.length = 0 then .ok sim
    else if 1 < inds.length then
      .error "Duplicate days are not allowed for Dynamic interventions"
    else
      match vs.getD (inds.headD 0) (PVal.scalar 0) with
      | PVal.map m => .ok (simUpdateKey sim k m)
      | v => .ok (simSet sim k v)

/-- Embeds `dynamic_pars.apply`: loop over the parameters, applying each matching
schedule entry; the first duplicate-day parameter raises. -/
def dynamic_pars_apply (dp : DynSchedule) (t : ℤ) (sim : SimPars) :
    Except String SimPars :=
  dp.foldlM (fun s p => dynamic_pars_applyPar t s p) sim

/-! ## `change_beta` (interventions.py lines 155-203) -/

/-- The state of a `change_beta` intervention.  A layer key of `none`
stands for the `'overall'` entry (configured with `layers=None`). -/
structure ChangeBeta where
  days : List ℤ
  changes : List ℚ
  layers : List (Option String)
  orig_betas : Option (List (Option String × ℚ))
deriving Repr

/-- The parts of the simulation parameter state that `change_beta`
touches: `sim['beta']` and `sim['beta_layers']`. -/
structure BetaState where
  beta : ℚ
  beta_layers : List (String × ℚ)
deriving DecidableEq, Repr

/-- Reading `sim['beta']` / `sim['beta_layers'][layer]` for a configured
layer (`none` = overall). -/
def BetaState.read (st : BetaState) : Option String → ℚ
  | none => st.beta
  | some l => (st.beta_layers.lookup l).getD 0

/-- Embeds `sim['beta_layers'][layer] = v`: overwrite the value stored at an
existing key. -/
def setAssoc (xs : List (String × ℚ)) (k : String) (v : ℚ) : List (String × ℚ) :=
  xs.map (fun q => if q.1 = k then (k, v) else q)

/-- Embeds `change_beta.__init__`: store days, changes and layers, checking the
lengths match; `orig_betas` starts out `None`. -/
def change_beta_init (days : List ℤ) (changes : List ℚ) (layers : List (Option String)) :
    Except String ChangeBeta :=
  if days.length = changes.length then
    .ok ⟨days, changes, layers, none⟩
  else
    .error "Number of days supplied does not match number of changes in beta"

/-- The inner loop of `change_beta.apply`:
`for ind in inds: new_beta = new_beta * self.changes[ind]`. -/
def chainChanges (changes : List ℚ) (inds : List ℕ) (b : ℚ) : ℚ :=
  inds.foldl (fun acc i => acc * changes.getD i 1) b

/-- Lines 196-202, the body of the loop over `self.orig_betas.items()`:
recompute the layer's beta from its cached baseline and overwrite
`sim['beta']` or `sim['beta_layers'][layer]`. -/
def cbStep (changes : List ℚ) (inds : List ℕ) (acc : BetaState)
    (p : Option String × ℚ) : BetaState :=
  let new_beta := chainChanges changes inds p.2
  match p.1 with
  | none => { acc with beta := new_beta }
  | some l => { acc with beta_layers := setAssoc acc.beta_layers l new_beta }

/-- Embeds `change_beta.apply`: snapshot the live betas into `orig_betas` on the
first call, then, on a matching day, recompute each configured layer's
beta from its cached baseline and overwrite the live value. -/
def change_beta_apply (cb : ChangeBeta) (t : ℤ) (st : BetaState) :
    ChangeBeta × BetaState :=
  let cb :=
    match cb.orig_betas with
    | some _ => cb
    | none => { cb with orig_betas := some (cb.layers.map (fun l => (l, st.read l))) }
  let origs := cb.orig_betas.getD []
  let inds := findinds cb.days t
  if inds.length = 0 then
    (cb, st)
  else
    (cb, origs.foldl (cbStep cb.changes inds) st)

/-! ## `contact_tracing` (interventions.py lines 278-317) -/

/-- An agent, with the disease/testing flags interventions read and
write.  `static_trace` and `dyn_sample` stand for the data returned by the
`Person` collaborator's `trace_static_contacts` and appended by
`trace_dynamic_contacts` (the `Person` class is outside `src/`; the spec
describes only its interface). -/
structure Person where
  symptomatic : Bool := false
  infectious : Bool := false
  diagnosed : Bool := false
  known_contact : Bool := false
  date_diagnosed : Option ℤ := none
  date_known_contact : Option ℤ := none
  date_tested : Option ℤ := none
  dyn_cont_ppl : List (ℕ × ℤ) := []
  static_trace : List (ℕ × ℤ) := []
  dyn_sample : List (ℕ × ℤ) := []
deriving DecidableEq, Repr

instance : Inhabited Person := ⟨{}⟩

/-- Replace the person at index `i` by `f` of it (out-of-range is
impossible in the embedded code paths and leaves the list unchanged). -/
def modifyAt (l : List Person) (i : ℕ) (f : Person → Person) : List Person :=
  match l.get? i with
  | some x => l.set i (f x)
  | none => l

/-- Lines 312-315: the known-contact date update for one contacted agent:
set it when unset, otherwise keep the minimum of the existing date and
`t + contact_time`. -/
def trace_update (old : Option ℤ) (t ct : ℤ) : Option ℤ :=
  match old with
  | none => some (t + ct)
  | some d => some (min d (t + ct))

/-- Lines 310-315: loop over the contacted people, updating each one's
known-contact date in turn. -/
def notify_contacts (people : List Person) (t : ℤ) (contactable : List (ℕ × ℤ)) :
    List Person :=
  contactable.foldl (fun ppl c =>
    modifyAt ppl c.1 (fun p =>
      { p with date_known_contact := trace_update p.date_known_contact t c.2 })) people

/-- Python `dict` iteration after `static.update(dyn)`: every key appears
once, with the dynamic entry overriding the static one. -/
def mergeContacts : List (ℕ × ℤ) → List (ℕ × ℤ)
  | [] => []
  | (k, v) :: rest => (k, v) :: mergeContacts (rest.filter (fun q => q.1 ≠ k))
termination_by l => l.length
decreasing_by
  exact Nat.lt_succ_of_le (List.length_filter_le _ _)

/-- The known-contact date of the person at index `j`. -/
def dateKnownAt (people : List Person) (j : ℕ) : Option ℤ :=
  match people.get? j with
  | some p => p.date_known_contact
  | none => none

/-- Lines 304-315: when the person at index `i` was diagnosed exactly
yesterday, merge its static trace with its accumulated dynamic contacts
and notify every contacted agent. -/
def contact_tracing_inner (t : ℤ) (people : List Person) (i : ℕ) : List Person :=
  match people.get? i with
  | none => people
  | some p' =>
    if p'.date_diagnosed = some (t - 1) then
      notify_contacts people t (mergeContacts (p'.dyn_cont_ppl ++ p'.static_trace))
    else people

/-- The body of `contact_tracing.apply` for the person at index `i`:
skip non-infectious people; append the day's dynamic-contact sample
(`trace_dynamic_contacts`, modelled from the spec as appending the agent's
own sampled contacts); then trace yesterday's diagnoses. -/
def contact_tracing_step (t : ℤ) (people : List Person) (i : ℕ) : List Person :=
  match people.get? i with
  | none => people
  | some p =>
    if ¬ p.infectious then people
    else
      contact_tracing_inner t
        (modifyAt people i (fun q =>
          { q with dyn_cont_ppl := q.dyn_cont_ppl ++ q.dyn_sample })) i

/-- The loop of `contact_tracing.apply` over all people, by index
(`for person in sim.people`: the list itself is never resized, only the
person objects are mutated, so iterating by index is faithful). -/
def contact_tracing_go (t : ℤ) : List ℕ → List Person → List Person
  | [], people => people
  | i :: rest, people => contact_tracing_go t rest (contact_tracing_step t people i)

/-- Embeds `contact_tracing.apply`: no-op before `start_day`, otherwise trace
every person's contacts in index order. -/
def contact_tracing_apply (start_day t : ℤ) (people : List Person) : List Person :=
  if t < start_day then people
  else contact_tracing_go t (List.range people.length) people

/-! ## `test_num` (interventions.py lines 216-275) -/

/-- A Python float where non-finiteness matters: a rational, or `inf`, or
`nan`. -/
inductive PyFloat where
  | num : ℚ → PyFloat
  | inf : PyFloat
  | nan : PyFloat
deriving DecidableEq, Repr

/-- Float addition (only the combinations `+=` can produce here). -/
def pyAdd : PyFloat → PyFloat → PyFloat
  | .num a, .num b => .num (a + b)
  | .nan, _ => .nan
  | _, .nan => .nan
  | _, _ => .inf

/-- Embeds the guard `n_tests and pl.isfinite(n_tests)`: `0.0` is falsy, `inf`/`nan` are
truthy but not finite, so the guard passes only for a finite non-zero
value. -/
def pyTruthyFinite : PyFloat → Bool
  | .num q => q ≠ 0
  | _ => false

/-- Embeds `pl.isfinite`. -/
def pyIsFinite : PyFloat → Bool
  | .num _ => true
  | _ => false

/-- The requested count as a number of draws, `⌊q⌋` clamped to ℕ (only
finite values reach this point; the exact rounding of a fractional budget
happens inside `cv.choose_weighted`, which is outside `src/`). -/
def pyCount : PyFloat → ℕ
  | .num q => (q.num / (q.den : ℤ)).toNat
  | _ => 0

/-- Modelled from the spec: `Person.check_diagnosed(day) -> 0|1`
(`covasim/person.py` is not under `src/`).  The diagnosis date is "the
simulated day an agent's positive test result becomes known to the
system": when that day arrives the agent becomes diagnosed and the call
reports 1, otherwise 0. -/
def check_diagnosed (p : Person) (t : ℤ) : ℕ × Person :=
  if ¬ p.diagnosed ∧ p.date_diagnosed = some t then
    (1, { p with diagnosed := true })
  else
    (0, p)

/-- Modelled from the spec: `Person.test(day, sensitivity, delay)`
(`covasim/person.py` is not under `src/`): records that the agent was
tested on this day; it does not touch the results accumulator. -/
def person_test (p : Person) (t : ℤ) : Person :=
  { p with date_tested := some t }

/-- Lines 255-266, the propensity for one person (after its
`check_diagnosed` call): start at 1, boost if symptomatic, boost if a
known contact, force to 0 if diagnosed. -/
def person_prob (sympt_test trace_test : ℚ) (p : Person) : ℚ :=
  let pr : ℚ := 1
  let pr := if p.symptomatic then pr * sympt_test else pr
  let pr := if p.known_contact then pr * trace_test else pr
  if p.diagnosed then 0 else pr

/-- Lines 252-266: the loop over people, returning the updated people,
the number of new diagnoses, and the propensity array. -/
def test_num_scan (sympt_test trace_test : ℚ) (t : ℤ) :
    List Person → List Person × ℕ × List ℚ
  | [] => ([], 0, [])
  | p :: rest =>
    let cd := check_diagnosed p t
    let r := test_num_scan sympt_test trace_test t rest
    (cd.2 :: r.1, cd.1 + r.2.1, person_prob sympt_test trace_test cd.2 :: r.2.2)

/-- The selection loop of `choose_weighted`: repeatedly pick one of the
still-eligible indices (driven by the random stream), without
replacement, until the requested count is reached or the eligible pool is
exhausted. -/
def cwGo : ℕ → List ℕ → List ℕ → List ℕ
  | 0, _, _ => []
  | n + 1, elig, rand =>
    if elig = [] then []
    else
      let k := rand.headD 0 % elig.length
      elig.getD k 0 :: cwGo n (elig.eraseIdx k) rand.tail

/-- Modelled from the spec: `cv.choose_weighted(probs, n, normalize=True)`
(`covasim/utils.py` is not under `src/`).  "Given an array of N
non-negative propensities and a requested count n, return up to n distinct
indices sampled without replacement, with selection probability
proportional to propensity after normalization"; zero-propensity indices
are never selected, and when n exceeds the eligible pool all eligible
indices are returned (clip, no error).  The random stream drives which
eligible index each draw picks. -/
def choose_weighted (probs : List ℚ) (n : ℕ) (rand : List ℕ) : List ℕ :=
  cwGo n ((List.range probs.length).filter (fun i => 0 < probs.getD i 0)) rand

/-- The configuration of a `test_num` intervention. -/
structure TestNum where
  daily_tests : List PyFloat
  sympt_test : ℚ := 100
  trace_test : ℚ := 1
deriving Repr

/-- The simulation state that `test_num.apply` reads and writes. -/
structure SimT where
  t : ℕ
  people : List Person
  new_tests : List PyFloat
  new_diagnoses : List ℚ
deriving DecidableEq, Repr

/-- Lines 252-273 of `test_num.apply`: everything after the budget was
recorded and found non-zero and finite — compute propensities, select the
day's test recipients, tally diagnoses and test the selected agents. -/
def test_num_testing (cfg : TestNum) (rand : List ℕ) (n_tests : PyFloat)
    (st : SimT) : SimT :=
  let t := st.t
  let scan := test_num_scan cfg.sympt_test cfg.trace_test (t : ℤ) st.people
  let test_inds := choose_weighted scan.2.2 (pyCount n_tests) rand
  { st with
    people := test_inds.foldl (fun ppl i =>
      modifyAt ppl i (fun p => person_test p (t : ℤ))) scan.1,
    new_diagnoses := st.new_diagnoses.set t (st.new_diagnoses.getD t 0 + scan.2.1) }

/-- Embeds `test_num.apply`: record the day's budget in `new_tests` (when the
budget list still covers today; this happens before the zero / non-finite
check), abort if the budget is zero or non-finite, otherwise test. -/
def test_num_apply (cfg : TestNum) (rand : List ℕ) (st : SimT) : SimT :=
  let t := st.t
  if t < cfg.daily_tests.length then
    let n_tests := cfg.daily_tests.getD t (.num 0)
    let st' := { st with
      new_tests := st.new_tests.set t (pyAdd (st.new_tests.getD t (.num 0)) n_tests) }
    if pyTruthyFinite n_tests then test_num_testing cfg rand n_tests st'
    else st'
  else st

/-- One simulated day from `test_num`'s point of view: run `apply`, then
advance the day counter. -/
def test_num_day (cfg : TestNum) (rand : List ℕ) (st : SimT) : SimT :=
  let st' := test_num_apply cfg rand st
  { st' with t := st'.t + 1 }

/-- Run `n` simulated days. -/
def test_num_run (cfg : TestNum) (rand : List ℕ) (st : SimT) : ℕ → SimT
  | 0 => st
  | n + 1 => test_num_run cfg rand (test_num_day cfg rand st) n

/-! ## Contact generation (population.py lines 203-263)

The Poisson sampler `cvu.pt` (`covasim/utils.py`, not under `src/`) is
modelled as consuming one value per call from an explicit stream of
draws, which is how the spec's "deterministic given a seeded random
source" contract is realized. -/

/-- Embeds `contacts_dict[i].add(j)` for the defaultdict-of-sets: the neighbor
sets of a layer as a function from agent index to its set of contacts. -/
def addEdge (d : ℕ → Finset ℕ) (i j : ℕ) : ℕ → Finset ℕ :=
  Function.update d i (insert j (d i))

/-- The body of the double loop of lines 250-256 for one pair `(i, j)`:
`j ≤ i` does nothing, otherwise both directed edges are inserted. -/
def addPair (d : ℕ → Finset ℕ) (i j : ℕ) : ℕ → Finset ℕ :=
  if j ≤ i then d
  else addEdge (addEdge d i j) j i

/-- Lines 250-256: insert the full symmetric clique over the indices of
one cluster. -/
def addCluster (d : ℕ → Finset ℕ) (idxs : List ℕ) : ℕ → Finset ℕ :=
  idxs.foldl (fun acc i => idxs.foldl (fun acc2 j => addPair acc2 i j) acc) d

/-- Lines 239-258: the cluster loop for one layer.  Each iteration of the
`while` loop consumes one Poisson draw, clips it to the remaining pool,
builds the clique over the next block of indices, and shrinks the pool;
the loop ends when everyone is assigned (a drawn size of 0 assigns nobody,
exactly as in the source). -/
def clusterLoop (pop_size : ℕ) : List ℕ → ℕ → (ℕ → Finset ℕ) → (ℕ → Finset ℕ)
  | [], _, d => d
  | _ :: _, 0, d => d
  | c :: rest, n_remaining + 1, d =>
    let this_cluster := min c (n_remaining + 1)
    let cluster_indices :=
      (List.range this_cluster).map (fun k => (pop_size - (n_remaining + 1)) + k)
    clusterLoop pop_size rest ((n_remaining + 1) - this_cluster) (addCluster d cluster_indices)

/-- One layer of `make_microstructured_contacts`: partition `pop_size`
agents into cliques whose sizes come from the draw stream. -/
def mkMicroLayer (pop_size : ℕ) (draws : List ℕ) : ℕ → Finset ℕ :=
  clusterLoop pop_size draws pop_size (fun _ => ∅)

/-- Embeds `make_microstructured_contacts`: each layer is built independently
from its own stream of cluster-size draws (the `'c'` community key has
already been removed; the final `np.array(list(...))` conversion is the
`Finset.toList` of each neighbor set). -/
def make_microstructured_contacts (pop_size : ℕ) (spec : List (String × List ℕ)) :
    List (String × (ℕ → Finset ℕ)) :=
  spec.map (fun layer => (layer.1, mkMicroLayer pop_size layer.2))

/-- Modelled from the spec: `cvu.choose(max_n, n)` (`covasim/utils.py` is
not under `src/`): "sample that many partner indices uniformly at random
from the whole population (sampling may include duplicates and the
agent's own index)" — each of the `n` draws takes the next stream value
reduced mod `max_n`. -/
def chooseRand (max_n n : ℕ) (stream : List ℕ) : List ℕ :=
  (List.range n).map (fun k => stream.getD k 0 % max_n)

/-- Lines 214-219 of `make_random_contacts` for one layer: person `p`
gets a Poisson-drawn number of partners chosen uniformly with
replacement. -/
def make_random_layer (pop_size : ℕ) (degdraws : ℕ → ℕ) (streams : ℕ → List ℕ) :
    List (List ℕ) :=
  (List.range pop_size).map (fun p => chooseRand pop_size (degdraws p) (streams p))

/-! ## Lemmas about the helpers -/

theorem firstTrue?_some_spec :
    ∀ (l : List Bool) (i : ℕ), firstTrue? l = some i →
      i < l.length ∧ l.getD i false = true ∧ ∀ j, j < i → l.getD j false = false := by
  intro l
  induction l with
  | nil => intro i h; simp [firstTrue?] at h
  | cons x rest ih =>
    intro i h
    cases x with
    | true =>
      simp [firstTrue?] at h
      subst h
      refine ⟨Nat.succ_pos _, rfl, ?_⟩
      intro j hj; omega
    | false =>
      simp [firstTrue?] at h
      obtain ⟨i', hi', rfl⟩ := h
      obtain ⟨h1, h2, h3⟩ := ih i' hi'
      refine ⟨by simpa using h1, by simpa using h2, ?_⟩
      intro j hj
      cases j with
      | zero => rfl
      | succ j' => simpa using h3 j' (by omega)

theorem firstTrue?_eq_none :
    ∀ (l : List Bool), (∀ b ∈ l, b = false) → firstTrue? l = none := by
  intro l
  induction l with
  | nil => intro _; rfl
  | cons x rest ih =>
    intro h
    have hx : x = false := h x (List.mem_cons_self _ _)
    subst hx
    simp [firstTrue?, ih (fun b hb => h b (List.mem_cons_of_mem _ hb))]

theorem firstTrue?_ne_none (l : List Bool) (i : ℕ) (hi : i < l.length)
    (ht : l.getD i false = true) : firstTrue? l ≠ none := by
  intro hnone
  induction l generalizing i with
  | nil => simp at hi
  | cons x rest ih =>
    cases x with
    | true => simp [firstTrue?] at hnone
    | false =>
      simp [firstTrue?] at hnone
      cases i with
      | zero => simp at ht
      | succ i' => exact ih i' (by simpa using hi) (by simpa using ht) hnone

theorem scanlTail_getD :
    ∀ (l : List ℤ) (a : ℤ) (i : ℕ), i < l.length →
      ((l.scanl (· + ·) a).tail).getD i 0 = a + (l.take (i + 1)).sum := by
  intro l
  induction l with
  | nil => intro a i h; simp at h
  | cons x xs ih =>
    intro a i h
    rw [List.scanl_cons]
    simp only [List.singleton_append, List.tail_cons]
    cases i with
    | zero =>
      cases xs with
      | nil => simp
      | cons y ys => simp
    | succ i' =>
      have : xs.scanl (· + ·) (a + x) =
          (a + x) :: (xs.scanl (· + ·) (a + x)).tail := by
        cases xs with
        | nil => simp
        | cons y ys => simp
      rw [this]
      simp only [List.getD_cons_succ]
      rw [ih (a + x) i' (by simpa using h)]
      simp [List.take_cons, add_assoc]

theorem cumsum_length (l : List ℤ) : (cumsum l).length = l.length := by
  unfold cumsum
  rw [List.length_tail, List.length_scanl]
  rfl

theorem cumsum_getD (l : List ℤ) (i : ℕ) (h : i < l.length) :
    (cumsum l).getD i 0 = (l.take (i + 1)).sum := by
  unfold cumsum
  rw [scanlTail_getD l 0 i h, zero_add]

/-! ## C4 and C9: `sequence` dispatch -/

/-- The boolean mask `self._cum_days > sim.t`. -/
theorem sequence_mask_getD (days : List ℤ) (t : ℤ) (j : ℕ)
    (hj : j < (cumsum days).length) :
    ((cumsum days).map (fun c => decide (t < c))).getD j false =
      decide (t < (cumsum days).getD j 0) := by
  rw [List.getD_eq_getElem _ _ (by simpa using hj), List.getD_eq_getElem _ _ hj,
    List.getElem_map]

/-- C4: the cumulative boundaries of a `sequence` intervention are the
prefix sums of its duration list, and `apply` dispatches to the child
whose cumulative boundary is the first to exceed the current day; with
`days = [10, 51]` (boundaries `[10, 61]`), day 5 goes to child 0 and days
15 and 60 go to child 1. -/
theorem sequence_dispatch_first_exceeding :
    (∀ (days : List ℤ) (i : ℕ), i < days.length →
        (cumsum days).getD i 0 = (days.take (i + 1)).sum) ∧
    (∀ (days : List ℤ) (t : ℤ),
        (∃ i, i < (cumsum days).length ∧ t < (cumsum days).getD i 0) →
        sequence_idx days t < (cumsum days).length ∧
        t < (cumsum days).getD (sequence_idx days t) 0 ∧
        ∀ j, j < sequence_idx days t → ¬ t < (cumsum days).getD j 0) ∧
    cumsum [10, 51] = [10, 61] ∧
    sequence_apply [10, 51] [0, 1] 5 = some 0 ∧
    sequence_apply [10, 51] [0, 1] 15 = some 1 ∧
    sequence_apply [10, 51] [0, 1] 60 = some 1 := by
  refine ⟨fun days i h => cumsum_getD days i h, ?_, by decide, by decide, by decide, by decide⟩
  intro days t ⟨i, hi, hti⟩
  set mask := (cumsum days).map (fun c => decide (t < c)) with hmask
  have hmlen : mask.length = (cumsum days).length := by simp [hmask]
  have hmem : mask.getD i false = true := by
    rw [sequence_mask_getD days t i hi]
    simpa using hti
  obtain ⟨k, hk⟩ : ∃ k, firstTrue? mask = some k := by
    cases h : firstTrue? mask with
    | none => exact absurd h (firstTrue?_ne_none mask i (hmlen ▸ hi) hmem)
    | some k => exact ⟨k, rfl⟩
  have hidx : sequence_idx days t = k := by
    unfold sequence_idx np_argmax_bool
    rw [← hmask, hk]; rfl
  obtain ⟨hk1, hk2, hk3⟩ := firstTrue?_some_spec mask k hk
  rw [hidx]
  have hklt : k < (cumsum days).length := hmlen ▸ hk1
  refine ⟨hklt, ?_, ?_⟩
  · have := sequence_mask_getD days t k hklt
    rw [this] at hk2
    simpa using hk2
  · intro j hj
    have hjlt : j < (cumsum days).length := lt_trans hj hklt
    have := hk3 j hj
    rw [sequence_mask_getD days t j hjlt] at this
    simpa using this

/-- Witness for C4 at a concrete input: `days = [10, 51]`, `t = 15`. -/
theorem sequence_dispatch_first_exceeding_witness :
    sequence_idx [10, 51] 15 < (cumsum [10, 51]).length ∧
    (15 : ℤ) < (cumsum [10, 51]).getD (sequence_idx [10, 51] 15) 0 ∧
    ∀ j, j < sequence_idx [10, 51] 15 → ¬ (15 : ℤ) < (cumsum [10, 51]).getD j 0 :=
  sequence_dispatch_first_exceeding.2.1 [10, 51] 15 ⟨1, by decide, by decide⟩

/-- C9: when the simulated day is at or past every cumulative boundary,
the all-false comparison mask makes `np.argmax` return 0, so `apply`
dispatches to the first child (no error, and not the last child). -/
theorem sequence_dispatch_past_end {α : Type} (days : List ℤ) (t : ℤ)
    (children : List α) (h : ∀ c ∈ cumsum days, ¬ t < c) :
    sequence_idx days t = 0 ∧ sequence_apply days children t = children.get? 0 := by
  have hmask : ∀ b ∈ (cumsum days).map (fun c => decide (t < c)), b = false := by
    intro b hb
    obtain ⟨c, hc, rfl⟩ := List.mem_map.mp hb
    simpa using h c hc
  have hidx : sequence_idx days t = 0 := by
    unfold sequence_idx np_argmax_bool
    rw [firstTrue?_eq_none _ hmask]
    rfl
  exact ⟨hidx, by rw [sequence_apply, hidx]⟩

/-- Witness for C9: `days = [10, 51]`, `t = 61 ≥ 10 + 51`, two children. -/
theorem sequence_dispatch_past_end_witness :
    sequence_idx [10, 51] 61 = 0 ∧
    sequence_apply [10, 51] [0, 1] 61 = some 0 := by
  have h := sequence_dispatch_past_end [10, 51] (61 : ℤ) [(0 : ℕ), 1] (by decide)
  simpa using h

/-! ## C1: `dynamic_pars` duplicate schedule days -/

/-- A schedule with two entries sharing day 10 for the same parameter, as
passed to the constructor. -/
def dupPars : List (String × ParSpec) :=
  [("beta", ⟨some [10, 10], some [PVal.scalar (5 / 1000), PVal.scalar (15 / 1000)]⟩)]

/-- What the constructor stores for `dupPars`. -/
def dupSchedule : DynSchedule :=
  [("beta", [10, 10], [PVal.scalar (5 / 1000), PVal.scalar (15 / 1000)])]

theorem dynamic_pars_applyPar_dup_error (t : ℤ) (sim : SimPars) (k : String)
    (ds : List ℤ) (vs : List PVal) (h : 1 < (findinds ds t).length) :
    dynamic_pars_applyPar t sim (k, ds, vs) =
      .error "Duplicate days are not allowed for Dynamic interventions" := by
  unfold dynamic_pars_applyPar
  have h0 : ¬ ((findinds ds t).length = 0) := by omega
  simp [h0, h]

/-- C1 counterexample: constructing `dynamic_pars` with two entries
sharing day 10 for the same parameter succeeds (no configuration error is
raised at construction time); the error only appears when `apply` runs on
day 10. -/
theorem dynamic_pars_dup_day_construction_succeeds :
    dynamic_pars_init dupPars = .ok dupSchedule ∧
    dynamic_pars_apply dupSchedule 10 [("beta", PVal.scalar (3 / 100))] =
      .error "Duplicate days are not allowed for Dynamic interventions" :=
  ⟨rfl, rfl⟩

/-- C1 (amended): construction with duplicate schedule days succeeds; the
fatal configuration error is raised by `apply` on any day that matches
more than one schedule entry for the same parameter. -/
theorem dynamic_pars_dup_day_raises_at_apply (dp : DynSchedule) (t : ℤ) (sim : SimPars)
    (h : ∃ p ∈ dp, 1 < (findinds p.2.1 t).length) :
    ∃ msg, dynamic_pars_apply dp t sim = .error msg := by
  induction dp generalizing sim with
  | nil => simp at h
  | cons p rest ih =>
    rw [dynamic_pars_apply, List.foldlM_cons]
    cases hp : dynamic_pars_applyPar t sim p with
    | error m => exact ⟨m, rfl⟩
    | ok s' =>
      obtain ⟨q, hq, hdup⟩ := h
      rcases List.mem_cons.mp hq with rfl | hq'
      · rw [dynamic_pars_applyPar_dup_error t sim q.1 q.2.1 q.2.2 hdup] at hp
        exact absurd hp (by simp)
      · obtain ⟨msg, hmsg⟩ := ih s' ⟨q, hq', hdup⟩
        exact ⟨msg, hmsg⟩

/-- Witness for C1 (amended): the duplicate-day schedule errors on day 10. -/
theorem dynamic_pars_dup_day_raises_at_apply_witness :
    ∃ msg, dynamic_pars_apply dupSchedule 10 [("beta", PVal.scalar (3 / 100))] =
      .error msg :=
  dynamic_pars_dup_day_raises_at_apply dupSchedule 10 [("beta", PVal.scalar (3 / 100))]
    ⟨("beta", [10, 10], [PVal.scalar (5 / 1000), PVal.scalar (15 / 1000)]),
      by simp [dupSchedule], by decide⟩

/-! ## C2: `change_beta` compounds from the cached baseline -/

theorem chainChanges_eq_mul_prod (changes : List ℚ) :
    ∀ (inds : List ℕ) (b : ℚ),
      chainChanges changes inds b = b * (inds.map (fun i => changes.getD i 1)).prod := by
  intro inds
  induction inds with
  | nil => intro b; simp [chainChanges]
  | cons i rest ih =>
    intro b
    rw [chainChanges, List.foldl_cons]
    rw [show List.foldl (fun acc j => acc * changes.getD j 1) (b * changes.getD i 1) rest =
      chainChanges changes rest (b * changes.getD i 1) from rfl]
    rw [ih]
    simp [mul_assoc]

theorem lookup_setAssoc_self :
    ∀ (xs : List (String × ℚ)) (k : String) (v x : ℚ),
      xs.lookup k = some x → (setAssoc xs k v).lookup k = some v := by
  intro xs
  induction xs with
  | nil => intro k v x h; simp [List.lookup] at h
  | cons p rest ih =>
    intro k v x h
    obtain ⟨a, b⟩ := p
    by_cases ha : a = k
    · subst ha
      simp [setAssoc, List.lookup_cons]
    · have hbeq : (k == a) = false := beq_false_of_ne (Ne.symm ha)
      simp only [List.lookup_cons, hbeq] at h
      simp only [setAssoc, List.map_cons, if_neg ha, List.lookup_cons, hbeq]
      exact ih k v x h

theorem lookup_setAssoc_ne :
    ∀ (xs : List (String × ℚ)) (k k' : String) (v : ℚ), k ≠ k' →
      (setAssoc xs k' v).lookup k = xs.lookup k := by
  intro xs
  induction xs with
  | nil => intro k k' v _; rfl
  | cons p rest ih =>
    intro k k' v h
    obtain ⟨a, b⟩ := p
    by_cases ha : a = k'
    · subst ha
      have hbeq : (k == a) = false := beq_false_of_ne h
      simp only [setAssoc, List.map_cons, eq_self_iff_true, if_true, List.lookup_cons, hbeq]
      exact ih k a v h
    · simp only [setAssoc, List.map_cons, if_neg ha, List.lookup_cons]
      cases hkk : (k == a) with
      | true => rfl
      | false => exact ih k k' v h

theorem cbFold_lookup_preserved (changes : List ℚ) (inds : List ℕ) (l : String) :
    ∀ (origs : List (Option String × ℚ)) (st : BetaState),
      (∀ p ∈ origs, p.1 ≠ some l) →
      ((origs.foldl (cbStep changes inds) st).beta_layers.lookup l) =
        st.beta_layers.lookup l := by
  intro origs
  induction origs with
  | nil => intro st _; rfl
  | cons p rest ih =>
    intro st h
    obtain ⟨pk, pb⟩ := p
    rw [List.foldl_cons]
    rw [ih _ (fun q hq => h q (List.mem_cons_of_mem _ hq))]
    have hp := h (pk, pb) (List.mem_cons_self _ _)
    cases pk with
    | none => rfl
    | some l' =>
      have hne : l ≠ l' := fun he => hp (by simp [he])
      simp only [cbStep]
      exact lookup_setAssoc_ne _ l l' _ hne

theorem cbFold_lookup (changes : List ℚ) (inds : List ℕ) (l : String) (b₀ : ℚ) :
    ∀ (origs : List (Option String × ℚ)) (st : BetaState) (x : ℚ),
      (origs.map Prod.fst).Nodup →
      (some l, b₀) ∈ origs →
      st.beta_layers.lookup l = some x →
      ((origs.foldl (cbStep changes inds) st).beta_layers.lookup l) =
        some (chainChanges changes inds b₀) := by
  intro origs
  induction origs with
  | nil => intro st x _ hmem; simp at hmem
  | cons p rest ih =>
    intro st x hnodup hmem hpres
    obtain ⟨pk, pb⟩ := p
    have hmap : (pk :: rest.map Prod.fst).Nodup := by
      simpa only [List.map_cons] using hnodup
    have hnodup' := List.nodup_cons.mp hmap
    rw [List.foldl_cons]
    by_cases hk : pk = some l
    · subst hk
      have hrest : ∀ q ∈ rest, q.1 ≠ some l := by
        intro q hq he
        exact hnodup'.1 (he ▸ List.mem_map_of_mem Prod.fst hq)
      have hb : pb = b₀ := by
        rcases List.mem_cons.mp hmem with he | hmemr
        · exact (Prod.mk.injEq _ _ _ _ ▸ he.symm).2
        · exact absurd (List.mem_map_of_mem Prod.fst hmemr) hnodup'.1
      subst hb
      rw [cbFold_lookup_preserved changes inds l rest _ hrest]
      exact lookup_setAssoc_self _ _ _ x hpres
    · have hmem' : (some l, b₀) ∈ rest := by
        rcases List.mem_cons.mp hmem with he | hmemr
        · exact absurd (congrArg Prod.fst he.symm) hk
        · exact hmemr
      have hpres' : (cbStep changes inds st (pk, pb)).beta_layers.lookup l = some x := by
        cases pk with
        | none => exact hpres
        | some l' =>
          have hne : l ≠ l' := fun he => hk (by simp [he])
          simp only [cbStep]
          rw [lookup_setAssoc_ne _ l l' _ hne]
          exact hpres
      exact ih _ x hnodup'.2 hmem' hpres'

/-- C2: once the baseline has been snapshotted, an `apply` on a matching
day sets the layer's live beta to the cached baseline times the product of
all matching change factors (not a value chained from the mutated live
parameter). -/
theorem change_beta_baseline_times_product (cb : ChangeBeta) (t : ℤ) (st : BetaState)
    (ob : List (Option String × ℚ)) (hob : cb.orig_betas = some ob)
    (hnodup : (ob.map Prod.fst).Nodup)
    (l : String) (b₀ : ℚ) (hmem : (some l, b₀) ∈ ob)
    (x : ℚ) (hpres : st.beta_layers.lookup l = some x)
    (hmatch : (findinds cb.days t).length ≠ 0) :
    ((change_beta_apply cb t st).2.beta_layers.lookup l) =
      some (b₀ * ((findinds cb.days t).map (fun i => cb.changes.getD i 1)).prod) := by
  rw [show (change_beta_apply cb t st).2 =
      if (findinds cb.days t).length = 0 then st
      else ob.foldl (cbStep cb.changes (findinds cb.days t)) st by
    simp only [change_beta_apply, hob]
    split <;> rfl]
  rw [if_neg hmatch]
  rw [cbFold_lookup cb.changes (findinds cb.days t) l b₀ ob st x hnodup hmem hpres]
  rw [chainChanges_eq_mul_prod]

/-- Witness for C2: baseline 0.015 on layer `h`, two day-10 entries with
factors 0.5 each; after `apply` on day 10 the live value is 0.00375. -/
theorem change_beta_baseline_times_product_witness :
    ((change_beta_apply
        ⟨[10, 10], [1 / 2, 1 / 2], [some "h"], some [(some "h", 3 / 200)]⟩
        10 ⟨3 / 100, [("h", 3 / 200)]⟩).2.beta_layers.lookup "h") =
      some (3 / 800) := by
  have h := change_beta_baseline_times_product
    ⟨[10, 10], [1 / 2, 1 / 2], [some "h"], some [(some "h", 3 / 200)]⟩
    10 ⟨3 / 100, [("h", 3 / 200)]⟩ [(some "h", 3 / 200)] rfl (by simp)
    "h" (3 / 200) (List.mem_singleton.mpr rfl) (3 / 200) rfl (by decide)
  rw [h]
  norm_num [findinds, List.filter, List.range, List.range.loop]

/-! ## C3: `contact_tracing` earliest-notification -/

theorem get?_modifyAt_ne (l : List Person) (i j : ℕ) (f : Person → Person)
    (h : i ≠ j) : (modifyAt l i f).get? j = l.get? j := by
  unfold modifyAt
  cases hi : l.get? i with
  | none => rfl
  | some p =>
    rw [List.get?_eq_getElem?, List.getElem?_set_ne h, ← List.get?_eq_getElem?]

theorem get?_modifyAt_self (l : List Person) (i : ℕ) (f : Person → Person)
    (p : Person) (h : l.get? i = some p) :
    (modifyAt l i f).get? i = some (f p) := by
  unfold modifyAt
  rw [h]
  obtain ⟨hlt, -⟩ := List.get?_eq_some.mp h
  rw [List.get?_eq_getElem?, List.getElem?_set_self hlt]

theorem dateKnownAt_modifyAt_keep (l : List Person) (i j : ℕ)
    (f : Person → Person) (hf : ∀ p, (f p).date_known_contact = p.date_known_contact) :
    dateKnownAt (modifyAt l i f) j = dateKnownAt l j := by
  by_cases hij : i = j
  · subst hij
    unfold dateKnownAt
    cases hi : l.get? i with
    | none =>
      rw [show modifyAt l i f = l by unfold modifyAt; rw [hi], hi]
    | some p =>
      rw [get?_modifyAt_self l i f p hi]
      exact hf p
  · unfold dateKnownAt
    rw [get?_modifyAt_ne l i j f hij]

theorem notify_contacts_date_le (t : ℤ) (j : ℕ) :
    ∀ (contactable : List (ℕ × ℤ)) (people : List Person) (x : ℤ),
      dateKnownAt people j = some x →
      ∃ y, dateKnownAt (notify_contacts people t contactable) j = some y ∧ y ≤ x := by
  intro contactable
  induction contactable with
  | nil => exact fun people x h => ⟨x, h, le_refl x⟩
  | cons c rest ih =>
    intro people x h
    rw [notify_contacts, List.foldl_cons]
    have hstep : ∃ y', dateKnownAt
        (modifyAt people c.1 (fun p =>
          { p with date_known_contact := trace_update p.date_known_contact t c.2 })) j =
        some y' ∧ y' ≤ x := by
      by_cases hij : c.1 = j
      · subst hij
        obtain ⟨p, hp⟩ : ∃ p, people.get? c.1 = some p := by
          unfold dateKnownAt at h
          cases hg : people.get? c.1 with
          | none => rw [hg] at h; exact absurd h (by simp)
          | some p => exact ⟨p, rfl⟩
        have hx : p.date_known_contact = some x := by
          unfold dateKnownAt at h
          rw [hp] at h
          exact h
        refine ⟨min x (t + c.2), ?_, min_le_left _ _⟩
        unfold dateKnownAt
        rw [get?_modifyAt_self people c.1 _ p hp]
        simp only [hx, trace_update]
      · refine ⟨x, ?_, le_refl x⟩
        unfold dateKnownAt
        rw [get?_modifyAt_ne people c.1 j _ hij]
        exact h
    obtain ⟨y', hy', hle'⟩ := hstep
    obtain ⟨y, hy, hle⟩ := ih _ y' hy'
    exact ⟨y, by rwa [notify_contacts] at hy, le_trans hle hle'⟩

theorem contact_tracing_step_none (t : ℤ) (people : List Person) (i : ℕ)
    (h : people.get? i = none) : contact_tracing_step t people i = people := by
  unfold contact_tracing_step
  rw [h]

theorem contact_tracing_step_some (t : ℤ) (people : List Person) (i : ℕ)
    (p : Person) (h : people.get? i = some p) :
    contact_tracing_step t people i =
      if ¬ p.infectious then people
      else contact_tracing_inner t
        (modifyAt people i (fun q =>
          { q with dyn_cont_ppl := q.dyn_cont_ppl ++ q.dyn_sample })) i := by
  unfold contact_tracing_step
  rw [h]

theorem contact_tracing_inner_none (t : ℤ) (people : List Person) (i : ℕ)
    (h : people.get? i = none) : contact_tracing_inner t people i = people := by
  unfold contact_tracing_inner
  rw [h]

theorem contact_tracing_inner_some (t : ℤ) (people : List Person) (i : ℕ)
    (p' : Person) (h : people.get? i = some p') :
    contact_tracing_inner t people i =
      if p'.date_diagnosed = some (t - 1) then
        notify_contacts people t (mergeContacts (p'.dyn_cont_ppl ++ p'.static_trace))
      else people := by
  unfold contact_tracing_inner
  rw [h]

theorem contact_tracing_inner_date_le (t : ℤ) (j : ℕ) (people : List Person)
    (i : ℕ) (x : ℤ) (h : dateKnownAt people j = some x) :
    ∃ y, dateKnownAt (contact_tracing_inner t people i) j = some y ∧ y ≤ x := by
  cases hg : people.get? i with
  | none =>
    rw [contact_tracing_inner_none t people i hg]
    exact ⟨x, h, le_refl x⟩
  | some p' =>
    rw [contact_tracing_inner_some t people i p' hg]
    by_cases hdiag : p'.date_diagnosed = some (t - 1)
    · rw [if_pos hdiag]
      exact notify_contacts_date_le t j _ people x h
    · rw [if_neg hdiag]
      exact ⟨x, h, le_refl x⟩

theorem contact_tracing_step_date_le (t : ℤ) (j : ℕ) (people : List Person)
    (i : ℕ) (x : ℤ) (h : dateKnownAt people j = some x) :
    ∃ y, dateKnownAt (contact_tracing_step t people i) j = some y ∧ y ≤ x := by
  cases hg : people.get? i with
  | none =>
    rw [contact_tracing_step_none t people i hg]
    exact ⟨x, h, le_refl x⟩
  | some p =>
    rw [contact_tracing_step_some t people i p hg]
    by_cases hinf : p.infectious
    · rw [if_neg (not_not_intro hinf)]
      refine contact_tracing_inner_date_le t j _ i x ?_
      rw [dateKnownAt_modifyAt_keep people i j
        (fun q => { q with dyn_cont_ppl := q.dyn_cont_ppl ++ q.dyn_sample })
        (fun q => rfl)]
      exact h
    · rw [if_pos (by simpa using hinf)]
      exact ⟨x, h, le_refl x⟩

theorem contact_tracing_go_date_le (t : ℤ) (j : ℕ) :
    ∀ (idxs : List ℕ) (people : List Person) (x : ℤ),
      dateKnownAt people j = some x →
      ∃ y, dateKnownAt (contact_tracing_go t idxs people) j = some y ∧ y ≤ x := by
  intro idxs
  induction idxs with
  | nil => exact fun people x h => ⟨x, h, le_refl x⟩
  | cons i rest ih =>
    intro people x h
    obtain ⟨y', hy', hle'⟩ := contact_tracing_step_date_le t j people i x h
    obtain ⟨y, hy, hle⟩ := ih _ y' hy'
    exact ⟨y, hy, le_trans hle hle'⟩

/-- C3: an agent contacted with delay `d` on day `t` gets its
known-contact date set to `t + d` when it was unset, and to the minimum
of the existing date and `t + d` otherwise; consequently a full
`contact_tracing.apply` never increases an existing known-contact date
(earliest notification wins). -/
theorem contact_tracing_earliest_wins :
    (∀ (people : List Person) (t : ℤ) (j : ℕ) (d : ℤ) (p : Person),
        people.get? j = some p →
        dateKnownAt (notify_contacts people t [(j, d)]) j =
          match p.date_known_contact with
          | none => some (t + d)
          | some x => some (min x (t + d))) ∧
    (∀ (start_day t : ℤ) (people : List Person) (j : ℕ) (x : ℤ),
        dateKnownAt people j = some x →
        ∃ y, dateKnownAt (contact_tracing_apply start_day t people) j = some y ∧
          y ≤ x) := by
  constructor
  · intro people t j d p hp
    unfold notify_contacts
    rw [List.foldl_cons, List.foldl_nil]
    unfold dateKnownAt
    rw [get?_modifyAt_self people j _ p hp]
    cases p.date_known_contact with
    | none => rfl
    | some x => rfl
  · intro start_day t people j x h
    unfold contact_tracing_apply
    by_cases hlt : t < start_day
    · rw [if_pos hlt]
      exact ⟨x, h, le_refl x⟩
    · rw [if_neg hlt]
      exact contact_tracing_go_date_le t j _ people x h

/-- Witness for C3: existing date 15 with candidate `10 + 2 = 12` becomes
12; a full `apply` on a person with existing date 10 yields a date `≤ 10`
(here the candidate is `10 + 10 = 20`, so it stays 10). -/
theorem contact_tracing_earliest_wins_witness :
    dateKnownAt (notify_contacts [{ date_known_contact := some 15 }] 10 [(0, 2)]) 0 =
      some 12 ∧
    ∃ y, dateKnownAt (contact_tracing_apply 0 10
        [{ infectious := true, date_diagnosed := some 9,
           date_known_contact := some 10, static_trace := [(0, 10)] }]) 0 =
      some y ∧ y ≤ 10 := by
  constructor
  · rw [contact_tracing_earliest_wins.1
      [{ date_known_contact := some 15 }] 10 0 2 { date_known_contact := some 15 } rfl]
    decide
  · exact contact_tracing_earliest_wins.2 0 10
      [{ infectious := true, date_diagnosed := some 9,
         date_known_contact := some 10, static_trace := [(0, 10)] }] 0 10 rfl

/-! ## C5, C6, C7: `test_num` -/

theorem pyAdd_num_zero (x : PyFloat) : pyAdd x (.num 0) = x := by
  cases x with
  | num q => simp [pyAdd]
  | inf => rfl
  | nan => rfl

theorem set_getD_self {α : Type} (d : α) :
    ∀ (l : List α) (t : ℕ), l.set t (l.getD t d) = l := by
  intro l
  induction l with
  | nil => intro t; rfl
  | cons x xs ih =>
    intro t
    cases t with
    | zero => rfl
    | succ t' =>
      show x :: xs.set t' (xs.getD t' d) = x :: xs
      rw [ih]

theorem cwGo_mem :
    ∀ (n : ℕ) (elig rand : List ℕ) (x : ℕ), x ∈ cwGo n elig rand → x ∈ elig := by
  intro n
  induction n with
  | zero => intro elig rand x h; simp [cwGo] at h
  | succ m ih =>
    intro elig rand x h
    rw [cwGo] at h
    by_cases helig : elig = []
    · rw [if_pos helig] at h
      simp at h
    · rw [if_neg helig] at h
      have hlen : 0 < elig.length := List.length_pos.mpr helig
      have hk : rand.headD 0 % elig.length < elig.length := Nat.mod_lt _ hlen
      rcases List.mem_cons.mp h with he | hrec
      · rw [he, List.getD_eq_getElem _ _ hk]
        exact List.getElem_mem _
      · exact List.eraseIdx_subset _ _ (ih _ _ x hrec)

theorem choose_weighted_mem (probs : List ℚ) (n : ℕ) (rand : List ℕ) :
    ∀ i ∈ choose_weighted probs n rand, i < probs.length ∧ 0 < probs.getD i 0 := by
  intro i hi
  have hmem := cwGo_mem n _ rand i hi
  have := List.mem_filter.mp hmem
  exact ⟨List.mem_range.mp this.1, of_decide_eq_true this.2⟩

theorem test_num_scan_probs (s tr : ℚ) (t : ℤ) :
    ∀ people : List Person,
      (test_num_scan s tr t people).2.2 =
        (test_num_scan s tr t people).1.map (person_prob s tr) := by
  intro people
  induction people with
  | nil => rfl
  | cons p rest ih =>
    simp only [test_num_scan, List.map_cons]
    rw [ih]

theorem person_prob_closed_form (s tr : ℚ) (p : Person) :
    person_prob s tr p =
      if p.diagnosed then 0
      else (if p.symptomatic then s else 1) * (if p.known_contact then tr else 1) := by
  unfold person_prob
  cases p.symptomatic <;> cases p.known_contact <;>
    simp [one_mul, mul_one]

/-- C6: the per-agent propensity starts at 1, is boosted by the
symptomatic factor and the traced-contact factor, and is forced to 0 for
diagnosed agents; consequently no diagnosed agent (as of the propensity
computation) is ever among the selected test indices. -/
theorem test_num_diagnosed_never_selected (sympt_test trace_test : ℚ) (t : ℤ)
    (people : List Person) (n : ℕ) (rand : List ℕ) :
    (∀ p : Person, person_prob sympt_test trace_test p =
        if p.diagnosed then 0
        else (if p.symptomatic then sympt_test else 1) *
          (if p.known_contact then trace_test else 1)) ∧
    ∀ i ∈ choose_weighted (test_num_scan sympt_test trace_test t people).2.2 n rand,
      ((test_num_scan sympt_test trace_test t people).1.getD i default).diagnosed
        = false := by
  refine ⟨person_prob_closed_form sympt_test trace_test, ?_⟩
  intro i hi
  obtain ⟨hlen, hpos⟩ := choose_weighted_mem _ n rand i hi
  rw [test_num_scan_probs] at hlen hpos
  rw [List.length_map] at hlen
  have hval : ((test_num_scan sympt_test trace_test t people).1.map
      (person_prob sympt_test trace_test)).getD i 0 =
      person_prob sympt_test trace_test
        ((test_num_scan sympt_test trace_test t people).1.getD i default) := by
    rw [List.getD_eq_getElem _ _ (by simpa using hlen),
      List.getD_eq_getElem _ _ hlen, List.getElem_map]
  rw [hval, person_prob_closed_form] at hpos
  by_contra hdiag
  rw [Bool.not_eq_false] at hdiag
  rw [if_pos hdiag] at hpos
  exact lt_irrefl 0 hpos

/-- Witness for C6: with agent 0 diagnosed and agent 1 healthy, index 1
is selected and is indeed not diagnosed. -/
theorem test_num_diagnosed_never_selected_witness :
    ((test_num_scan 100 1 0 [{ diagnosed := true }, {}]).1.getD 1 default).diagnosed
      = false :=
  (test_num_diagnosed_never_selected 100 1 0 [{ diagnosed := true }, {}] 1 []).2
    1 (by decide)

/-- The 5-day configuration of the spec's conservation test. -/
def cfg5 : TestNum :=
  ⟨[.num 2, .num 2, .num 2, .num 2, .num 2], 100, 1⟩

/-- Four healthy agents, day 0, zeroed 5-day results arrays. -/
def st5 : SimT :=
  ⟨0, [{}, {}, {}, {}], [.num 0, .num 0, .num 0, .num 0, .num 0], [0, 0, 0, 0, 0]⟩

/-- C5: each day with `t < len(daily_tests)` adds exactly `daily_tests[t]`
to `results['new_tests'][t]`; a day past the end of the budget list is a
complete no-op; and the concrete 5-day run with budget `[2,2,2,2,2]` and
four always-eligible agents records exactly `[2,2,2,2,2]`. -/
theorem test_num_budget_conservation (cfg : TestNum) (rand : List ℕ) (st : SimT) :
    (st.t < cfg.daily_tests.length →
      (test_num_apply cfg rand st).new_tests =
        st.new_tests.set st.t
          (pyAdd (st.new_tests.getD st.t (.num 0))
            (cfg.daily_tests.getD st.t (.num 0)))) ∧
    (¬ st.t < cfg.daily_tests.length → test_num_apply cfg rand st = st) ∧
    (test_num_run cfg5 [] st5 5).new_tests =
      [.num 2, .num 2, .num 2, .num 2, .num 2] := by
  refine ⟨?_, ?_, ?_⟩
  · intro h
    simp only [test_num_apply]
    rw [if_pos h]
    by_cases hf : pyTruthyFinite (cfg.daily_tests.getD st.t (.num 0))
    · rw [if_pos hf]
      rfl
    · rw [if_neg hf]
  · intro h
    simp only [test_num_apply]
    rw [if_neg h]
  · norm_num [test_num_run, test_num_day, test_num_apply, test_num_testing,
      test_num_scan, check_diagnosed, person_prob, person_test, choose_weighted,
      cwGo, pyCount, pyAdd, pyTruthyFinite, modifyAt, cfg5, st5]

/-- Witness for C5: day 0 of the concrete run adds exactly 2 tests. -/
theorem test_num_budget_conservation_witness :
    (test_num_apply cfg5 [] st5).new_tests =
      [.num 2, .num 0, .num 0, .num 0, .num 0] := by
  rw [(test_num_budget_conservation cfg5 [] st5).1 (by decide)]
  norm_num [cfg5, st5, pyAdd]

/-- A `test_num` whose day-0 budget is non-finite. -/
def cfgInf : TestNum := ⟨[.inf], 100, 1⟩

/-- An empty-population state with a zeroed 1-day results array. -/
def stInf : SimT := ⟨0, [], [.num 0], [0]⟩

/-- C7 counterexample: with a non-finite requested count, `apply` is not a
state-preserving no-op — the results accumulator changes, because the
budget is added to `new_tests` before the finiteness check. -/
theorem test_num_nonfinite_mutates_results :
    (test_num_apply cfgInf [] stInf).new_tests = [PyFloat.inf] ∧
    stInf.new_tests = [PyFloat.num 0] :=
  ⟨rfl, rfl⟩

/-- C7 (amended): when the day's budget exists and is zero, `apply` is a
complete no-op; when it is non-finite, `apply` raises nothing and tests
nobody (people and diagnosis tallies unchanged), but the non-finite
budget is still added to `results['new_tests'][t]`. -/
theorem test_num_zero_or_nonfinite_budget (cfg : TestNum) (rand : List ℕ)
    (st : SimT) (h : st.t < cfg.daily_tests.length) :
    (cfg.daily_tests.getD st.t (.num 0) = .num 0 →
      test_num_apply cfg rand st = st) ∧
    (pyIsFinite (cfg.daily_tests.getD st.t (.num 0)) = false →
      (test_num_apply cfg rand st).people = st.people ∧
      (test_num_apply cfg rand st).new_diagnoses = st.new_diagnoses ∧
      (test_num_apply cfg rand st).new_tests =
        st.new_tests.set st.t
          (pyAdd (st.new_tests.getD st.t (.num 0))
            (cfg.daily_tests.getD st.t (.num 0)))) := by
  constructor
  · intro hzero
    simp only [test_num_apply]
    rw [if_pos h, hzero]
    rw [if_neg (by decide : ¬ pyTruthyFinite (.num 0) = true)]
    rw [pyAdd_num_zero, set_getD_self]
  · intro hnf
    have htf : pyTruthyFinite (cfg.daily_tests.getD st.t (.num 0)) = false := by
      cases hval : cfg.daily_tests.getD st.t (.num 0) with
      | num q => rw [hval] at hnf; exact absurd hnf (by simp [pyIsFinite])
      | inf => rfl
      | nan => rfl
    simp only [test_num_apply]
    rw [if_pos h, if_neg (by rw [htf]; exact Bool.false_ne_true)]
    exact ⟨rfl, rfl, rfl⟩

/-- Witness for C7 (amended): a zero budget is a complete no-op, and the
`inf` budget leaves the population untouched. -/
theorem test_num_zero_or_nonfinite_budget_witness :
    test_num_apply ⟨[.num 0], 100, 1⟩ [] ⟨0, [], [.num 5], [0]⟩ =
      ⟨0, [], [.num 5], [0]⟩ ∧
    (test_num_apply cfgInf [] stInf).people = stInf.people := by
  constructor
  · exact (test_num_zero_or_nonfinite_budget ⟨[.num 0], 100, 1⟩ []
      ⟨0, [], [.num 5], [0]⟩ (by decide)).1 (by decide)
  · exact ((test_num_zero_or_nonfinite_budget cfgInf [] stInf (by decide)).2
      (by decide)).1

/-! ## C8 and C10: clustered contact invariants -/

theorem addPair_mem (d : ℕ → Finset ℕ) (i j a b : ℕ) :
    b ∈ addPair d i j a ↔
      (¬ j ≤ i ∧ ((a = i ∧ b = j) ∨ (a = j ∧ b = i))) ∨ b ∈ d a := by
  unfold addPair addEdge
  by_cases hij : j ≤ i
  · simp [hij]
  · have hne : i ≠ j := by omega
    rw [if_neg hij]
    by_cases haj : a = j
    · subst haj
      rw [Function.update_same, Function.update_noteq (Ne.symm hne)]
      simp [hij, Ne.symm hne, hne]
    · rw [Function.update_noteq haj]
      by_cases hai : a = i
      · subst hai
        rw [Function.update_same]
        simp [hij, haj]
      · rw [Function.update_noteq hai]
        simp [hij, haj, hai]

theorem addPair_symm (d : ℕ → Finset ℕ) (i j : ℕ)
    (hd : ∀ a b, b ∈ d a ↔ a ∈ d b) :
    ∀ a b, b ∈ addPair d i j a ↔ a ∈ addPair d i j b := by
  intro a b
  rw [addPair_mem, addPair_mem, hd a b]
  tauto

theorem addPair_no_self (d : ℕ → Finset ℕ) (i j : ℕ)
    (hd : ∀ a, a ∉ d a) : ∀ a, a ∉ addPair d i j a := by
  intro a h
  rw [addPair_mem] at h
  rcases h with ⟨hle, hcase⟩ | hmem
  · rcases hcase with ⟨rfl, rfl⟩ | ⟨rfl, rfl⟩ <;> omega
  · exact hd a hmem

theorem foldl_preserve {α β : Type} (P : α → Prop) (step : α → β → α)
    (hstep : ∀ acc x, P acc → P (step acc x)) :
    ∀ (l : List β) (acc : α), P acc → P (l.foldl step acc) := by
  intro l
  induction l with
  | nil => intro acc h; exact h
  | cons x rest ih =>
    intro acc h
    rw [List.foldl_cons]
    exact ih _ (hstep acc x h)

theorem addCluster_preserve (P : (ℕ → Finset ℕ) → Prop)
    (hP : ∀ d i j, P d → P (addPair d i j)) (idxs : List ℕ)
    (d : ℕ → Finset ℕ) (h : P d) : P (addCluster d idxs) :=
  foldl_preserve P _
    (fun acc i hacc => foldl_preserve P _ (fun acc2 j h2 => hP acc2 i j h2) idxs acc hacc)
    idxs d h

theorem clusterLoop_preserve (P : (ℕ → Finset ℕ) → Prop)
    (hP : ∀ d i j, P d → P (addPair d i j)) (pop_size : ℕ) :
    ∀ (draws : List ℕ) (n_remaining : ℕ) (d : ℕ → Finset ℕ),
      P d → P (clusterLoop pop_size draws n_remaining d) := by
  intro draws
  induction draws with
  | nil => intro n d h; exact h
  | cons c rest ih =>
    intro n d h
    cases n with
    | zero => exact h
    | succ m =>
      rw [clusterLoop]
      exact ih _ _ (addCluster_preserve P hP _ d h)

theorem mkMicroLayer_symm (pop_size : ℕ) (draws : List ℕ) :
    ∀ a b, b ∈ mkMicroLayer pop_size draws a ↔ a ∈ mkMicroLayer pop_size draws b := by
  exact clusterLoop_preserve (fun d => ∀ a b, b ∈ d a ↔ a ∈ d b)
    (fun d i j hd => addPair_symm d i j hd) pop_size draws pop_size
    (fun _ => ∅) (by simp)

theorem mkMicroLayer_no_self (pop_size : ℕ) (draws : List ℕ) :
    ∀ a, a ∉ mkMicroLayer pop_size draws a := by
  exact clusterLoop_preserve (fun d => ∀ a, a ∉ d a)
    (fun d i j hd => addPair_no_self d i j hd) pop_size draws pop_size
    (fun _ => ∅) (by simp)

/-- C8: every layer built by the clustered contact model is symmetric:
`j ∈ neighbors(i, layer) ↔ i ∈ neighbors(j, layer)` for all agents. -/
theorem micro_contacts_symmetric (pop_size : ℕ) (spec : List (String × List ℕ))
    (nm : String) (d : ℕ → Finset ℕ)
    (hmem : (nm, d) ∈ make_microstructured_contacts pop_size spec) :
    ∀ i j, j ∈ d i ↔ i ∈ d j := by
  obtain ⟨layer, _, heq⟩ := List.mem_map.mp hmem
  have hd : d = mkMicroLayer pop_size layer.2 := (Prod.mk.injEq _ _ _ _ ▸ heq.symm).2
  rw [hd]
  exact mkMicroLayer_symm pop_size layer.2

/-- Witness for C8: five agents split into clusters of 3 and 2; the edge
0–1 exists and is symmetric. -/
theorem micro_contacts_symmetric_witness :
    (1 ∈ mkMicroLayer 5 [3, 2] 0 ↔ 0 ∈ mkMicroLayer 5 [3, 2] 1) ∧
    1 ∈ mkMicroLayer 5 [3, 2] 0 := by
  constructor
  · exact micro_contacts_symmetric 5 [("h", [3, 2])] "h" (mkMicroLayer 5 [3, 2])
      (by simp [make_microstructured_contacts]) 0 1
  · decide

/-- C10: in every layer built by the clustered contact model an agent is
never its own neighbor and the neighbor list has no duplicates, while the
random model can produce both a self-contact and duplicate partners
(agent 0 with two draws of stream value 0 gets neighbor list `[0, 0]`). -/
theorem micro_contacts_no_self_no_dup (pop_size : ℕ)
    (spec : List (String × List ℕ)) (nm : String) (d : ℕ → Finset ℕ)
    (hmem : (nm, d) ∈ make_microstructured_contacts pop_size spec) :
    (∀ i, i ∉ d i) ∧ (∀ i, (d i).toList.Nodup) ∧
    ((make_random_layer 5 (fun _ => 2) (fun _ => [0, 0])).getD 0 [] = [0, 0] ∧
      0 ∈ (make_random_layer 5 (fun _ => 2) (fun _ => [0, 0])).getD 0 [] ∧
      ¬ ((make_random_layer 5 (fun _ => 2) (fun _ => [0, 0])).getD 0 []).Nodup) := by
  obtain ⟨layer, _, heq⟩ := List.mem_map.mp hmem
  have hd : d = mkMicroLayer pop_size layer.2 := (Prod.mk.injEq _ _ _ _ ▸ heq.symm).2
  subst hd
  refine ⟨mkMicroLayer_no_self pop_size layer.2, fun i => Finset.nodup_toList _, ?_, ?_, ?_⟩
  · decide
  · decide
  · decide

/-- Witness for C10: agent 0 of the 3+2 clustering is not its own
neighbor and its neighbor list is duplicate-free. -/
theorem micro_contacts_no_self_no_dup_witness :
    0 ∉ mkMicroLayer 5 [3, 2] 0 ∧ (mkMicroLayer 5 [3, 2] 0).toList.Nodup := by
  have h := micro_contacts_no_self_no_dup 5 [("h", [3, 2])] "h" (mkMicroLayer 5 [3, 2])
    (by simp [make_microstructured_contacts])
  exact ⟨h.1 0, h.2.1 0⟩

end Covasim
